import Mathlib

/-!
Shallow embedding of `osmium::index::map::VectorBasedDenseMap` and
`osmium::index::map::VectorBasedSparseMap` from
`src/third_party/libosmium/include/osmium/index/detail/vector_map.hpp`.

The backing `TVector` is modelled as a Lean `List`; identifiers (`TId`,
an unsigned integer type) are modelled as `Nat`; the value type `TValue`
is a type parameter `V`.  The empty-value sentinel
(`osmium::index::empty_value<TValue>()`, declared outside this
repository's sources) and the value-initialised fill used by
`std::vector::resize` are passed as explicit parameters, matching the
spec's description of the sentinel as a caller/type-specific constant.
-/

namespace Osmium

/-- Error raised by `osmium::not_found_error(id)`: the single error kind
of both maps. -/
inductive MapError where
  | notFound (id : Nat)
deriving DecidableEq

/-- Error raised when the sink of a dump cannot accept the full byte
count. -/
inductive WriteError where
  | writeFailed
deriving DecidableEq

/-- The class `VectorBasedDenseMap<TVector, TId, TValue>`: its single
field `TVector m_vector`, modelled as a list of values. -/
structure VectorBasedDenseMap (V : Type) where
  m_vector : List V
deriving DecidableEq

namespace VectorBasedDenseMap

variable {V : Type}

/-- Model of `std::vector::resize(n)`: truncate to `n` elements when
shrinking, append value-initialised elements (`dflt`) when growing. -/
def vectorResize (dflt : V) (l : List V) (n : Nat) : List V :=
  if n ≤ l.length then l.take n else l ++ List.replicate (n - l.length) dflt

/-- Source `size()`: `return m_vector.size();`. -/
def size (m : VectorBasedDenseMap V) : Nat :=
  m.m_vector.length

/-- Source `set(id, value)`: `if (size() <= id) m_vector.resize(id+1);
m_vector[id] = value;`. -/
def set (m : VectorBasedDenseMap V) (dflt : V) (id : Nat) (v : V) :
    VectorBasedDenseMap V :=
  let grown := if m.size ≤ id then vectorResize dflt m.m_vector (id + 1) else m.m_vector
  ⟨grown.set id v⟩

/-- Source `get(id)`: `m_vector.at(id)` throws `std::out_of_range` when
`id >= size()`, which the catch block turns into `not_found_error(id)`;
a stored value equal to `osmium::index::empty_value<TValue>()` (the
parameter `e`) is also reported as `not_found_error(id)`; otherwise the
stored value is returned. -/
def get [DecidableEq V] (m : VectorBasedDenseMap V) (e : V) (id : Nat) :
    Except MapError V :=
  match m.m_vector[id]? with
  | none => .error (.notFound id)
  | some v => if v = e then .error (.notFound id) else .ok v

/-- Source `byte_size()`: `m_vector.size() * sizeof(element_type)`.  The
platform constant `sizeof(TValue)` is the parameter `sizeofV`. -/
def byte_size (m : VectorBasedDenseMap V) (sizeofV : Nat) : Nat :=
  m.m_vector.length * sizeofV

/-- Raw byte image of the backing buffer `m_vector.data()`: the
concatenation of the object representations of the elements in index
order.  The platform's object representation of a value is the
parameter `enc`. -/
def byteImage (m : VectorBasedDenseMap V) (enc : V → List UInt8) : List UInt8 :=
  (m.m_vector.map enc).flatten

/-- Modelled from the spec: `osmium::io::detail::reliable_write`
(declared in `osmium/io/detail/read_write.hpp`, which is not among the
sources) writes the full byte count to the file descriptor or fails; no
partial write is reported as success.  The sink's ability to accept
bytes is modelled by `capacity`; on success the result carries exactly
the bytes written. -/
def reliable_write (capacity : Nat) (data : List UInt8) :
    Except WriteError (List UInt8) :=
  if data.length ≤ capacity then .ok data else .error .writeFailed

/-- Source `dump_as_array(fd)`:
`reliable_write(fd, reinterpret_cast<const char*>(m_vector.data()), byte_size());`. -/
def dump_as_array (m : VectorBasedDenseMap V) (capacity : Nat)
    (enc : V → List UInt8) : Except WriteError (List UInt8) :=
  reliable_write capacity (m.byteImage enc)

end VectorBasedDenseMap

/-- The class `VectorBasedSparseMap<TId, TValue, TVector>`: its single
field `vector_type m_vector`, a vector of `element_type
= std::pair<TId, TValue>`, modelled as a list of pairs. -/
structure VectorBasedSparseMap (V : Type) where
  m_vector : List (Nat × V)
deriving DecidableEq

namespace VectorBasedSparseMap

variable {V : Type}

/-- Source `set(id, value)`:
`m_vector.push_back(element_type(id, value));`. -/
def set (m : VectorBasedSparseMap V) (id : Nat) (v : V) :
    VectorBasedSparseMap V :=
  ⟨m.m_vector ++ [(id, v)]⟩

/-- Model of the call `std::lower_bound(m_vector.begin(), m_vector.end(),
element, [](a, b) { return a.first < b.first; })` by the C++ standard
contract of `std::lower_bound`: the first position whose element `x` has
`comp(x, element)` false, i.e. `!(x.first < id)`; the list length plays
the role of the `end()` iterator. -/
def lower_bound (l : List (Nat × V)) (id : Nat) : Nat :=
  l.findIdx (fun x => !decide (x.1 < id))

/-- Source `get(id)`: binary-search for the first element whose key is
not less than `id` (the local `result` iterator, inlined here); if the
result is `end()` or its key differs from `id`, raise
`not_found_error(id)`, else return its value. -/
def get (m : VectorBasedSparseMap V) (id : Nat) : Except MapError V :=
  match m.m_vector[lower_bound m.m_vector id]? with
  | none => .error (.notFound id)
  | some x => if x.1 ≠ id then .error (.notFound id) else .ok x.2

/-- Source `size()`: `return m_vector.size();`. -/
def size (m : VectorBasedSparseMap V) : Nat :=
  m.m_vector.length

/-- Comparison used by `std::sort(m_vector.begin(), m_vector.end())` on
`std::pair<TId, TValue>`: the non-strict order induced by the pair's
lexicographic `operator<`, namely `a ≤ b ↔ ¬(b < a)`. -/
def pairLe [LinearOrder V] (a b : Nat × V) : Bool :=
  decide (a.1 < b.1) || (decide (a.1 = b.1) && decide (a.2 ≤ b.2))

/-- Source `sort()`: `std::sort(m_vector.begin(), m_vector.end());`.
`std::sort` produces a permutation of the input that is sorted for the
pair's strict weak order; since that order is total and antisymmetric on
`Nat × V` with `V` linearly ordered, the sorted arrangement of a given
multiset is unique as a sequence, so `List.mergeSort` with `pairLe`
computes exactly the output `std::sort` is specified to produce. -/
def sort [LinearOrder V] (m : VectorBasedSparseMap V) :
    VectorBasedSparseMap V :=
  ⟨m.m_vector.mergeSort pairLe⟩

/-- State of a sparse map after a batch of `set` calls starting from the
default-constructed (empty) map: `setAll ps` performs `set id v` for
each `(id, v)` in `ps`, in order. -/
def setAll (ps : List (Nat × V)) : VectorBasedSparseMap V :=
  ps.foldl (fun m p => m.set p.1 p.2) ⟨[]⟩

end VectorBasedSparseMap

namespace VectorBasedDenseMap

variable {V : Type}

theorem getElem?_set_m_vector_self (m : VectorBasedDenseMap V) (dflt v : V)
    (id : Nat) : ((m.set dflt id v).m_vector)[id]? = some v := by
  unfold set
  by_cases h : m.size ≤ id
  · simp only [h, if_true]
    apply List.getElem?_set_self
    unfold vectorResize
    unfold size at h
    have hgt : ¬ (id + 1 ≤ m.m_vector.length) := by omega
    simp only [hgt, if_false, List.length_append, List.length_replicate]
    omega
  · simp only [h, if_false]
    apply List.getElem?_set_self
    unfold size at h
    omega

theorem dense_get_of_getElem?_none [DecidableEq V] {m : VectorBasedDenseMap V}
    {e : V} {id : Nat} (hr : m.m_vector[id]? = none) :
    m.get e id = .error (.notFound id) := by
  unfold get
  rw [hr]

theorem dense_get_of_getElem?_some [DecidableEq V] {m : VectorBasedDenseMap V}
    {e w : V} {id : Nat} (hr : m.m_vector[id]? = some w) :
    m.get e id = if w = e then .error (.notFound id) else .ok w := by
  unfold get
  rw [hr]

theorem get_eq_ok_iff [DecidableEq V] (m : VectorBasedDenseMap V) (e : V)
    (id : Nat) (v : V) :
    m.get e id = .ok v ↔ m.m_vector[id]? = some v ∧ v ≠ e := by
  cases hr : m.m_vector[id]? with
  | none =>
    rw [dense_get_of_getElem?_none hr]
    simp
  | some w =>
    rw [dense_get_of_getElem?_some hr]
    by_cases hw : w = e
    · rw [if_pos hw]
      constructor
      · intro h
        cases h
      · rintro ⟨hww, hne⟩
        cases hww
        exact absurd hw hne
    · rw [if_neg hw]
      constructor
      · intro h
        cases h
        exact ⟨rfl, hw⟩
      · rintro ⟨hww, hne⟩
        cases hww
        rfl

/-- Claim C1: DenseIndex round-trip.  For every identifier `id` and every
value `v` different from the empty-value sentinel `e`, after `set id v`
the call `get id` succeeds and returns `v`. -/
theorem claim_C1_dense_roundtrip [DecidableEq V] (m : VectorBasedDenseMap V)
    (dflt e : V) (id : Nat) (v : V) (hv : v ≠ e) :
    (m.set dflt id v).get e id = .ok v := by
  rw [get_eq_ok_iff]
  exact ⟨getElem?_set_m_vector_self m dflt v id, hv⟩

/-- Witness for C1 at a concrete input. -/
theorem claim_C1_witness :
    ((⟨[]⟩ : VectorBasedDenseMap Nat).set 0 3 7).get 0 3 = .ok 7 :=
  claim_C1_dense_roundtrip ⟨[]⟩ 0 0 3 7 (by decide)

/-- Claim C3: DenseIndex growth with gap-fill.  After `set id v` on an
empty DenseIndex, `size` equals `id + 1`, and every identifier `j < id`
(never set) fails with `NotFound j`.  As the claim itself notes, growth
fills new slots with the value type's default representation `dflt`, so
the gap-fill half holds where `dflt` equals the sentinel `e`. -/
theorem claim_C3_dense_growth [DecidableEq V] (dflt e : V) (id : Nat) (v : V)
    (hde : dflt = e) :
    ((⟨[]⟩ : VectorBasedDenseMap V).set dflt id v).size = id + 1 ∧
    ∀ j, j < id →
      ((⟨[]⟩ : VectorBasedDenseMap V).set dflt id v).get e j
        = .error (.notFound j) := by
  have hvec : ((⟨[]⟩ : VectorBasedDenseMap V).set dflt id v).m_vector
      = (List.replicate (id + 1) dflt).set id v := by
    unfold set vectorResize size
    simp
  constructor
  · unfold size
    rw [hvec]
    simp
  · intro j hj
    unfold get
    rw [hvec, List.getElem?_set_ne (by omega),
      List.getElem?_replicate_of_lt (by omega)]
    simp [hde]

/-- Witness for C3 at a concrete input. -/
theorem claim_C3_witness :
    ((⟨[]⟩ : VectorBasedDenseMap Nat).set 0 2 5).size = 3 ∧
    ((⟨[]⟩ : VectorBasedDenseMap Nat).set 0 2 5).get 0 1
      = .error (.notFound 1) :=
  ⟨(claim_C3_dense_growth 0 0 2 5 rfl).1,
    (claim_C3_dense_growth 0 0 2 5 rfl).2 1 (by decide)⟩

/-- Claim C4: DenseIndex `get` failure characterisation.  `get id` fails
with `NotFound id` exactly when `id` is out of range or the stored slot
equals the sentinel; in all other cases it returns the stored value; and
`NotFound id` is the only error it can raise. -/
theorem claim_C4_dense_get_characterisation [DecidableEq V]
    (m : VectorBasedDenseMap V) (e : V) (id : Nat) :
    (m.get e id = .error (.notFound id) ↔
      m.size ≤ id ∨ m.m_vector[id]? = some e) ∧
    (∀ v, m.m_vector[id]? = some v → v ≠ e → m.get e id = .ok v) ∧
    (∀ err, m.get e id = .error err → err = .notFound id) := by
  unfold size
  cases hr : m.m_vector[id]? with
  | none =>
    have hlen : m.m_vector.length ≤ id := List.getElem?_eq_none_iff.mp hr
    rw [dense_get_of_getElem?_none hr]
    refine ⟨⟨fun _ => Or.inl hlen, fun _ => rfl⟩, ?_, ?_⟩
    · intro v hv
      cases hv
    · intro err herr
      cases herr
      rfl
  | some w =>
    have hlt : id < m.m_vector.length := by
      rcases List.getElem?_eq_some_iff.mp hr with ⟨h, _⟩
      exact h
    rw [dense_get_of_getElem?_some hr]
    by_cases hw : w = e
    · rw [if_pos hw]
      refine ⟨⟨fun _ => Or.inr (by rw [hw]), fun _ => rfl⟩, ?_, ?_⟩
      · intro v hv hne
        cases hv
        exact absurd hw hne
      · intro err herr
        cases herr
        rfl
    · rw [if_neg hw]
      refine ⟨⟨fun h => ?_, fun h => ?_⟩, ?_, ?_⟩
      · cases h
      · rcases h with h | h
        · exact absurd h (by omega)
        · cases h
          exact absurd rfl hw
      · intro v hv _
        cases hv
        rfl
      · intro err herr
        cases herr

/-- Witness for C4 at a concrete input. -/
theorem claim_C4_witness :
    (⟨[5]⟩ : VectorBasedDenseMap Nat).get 0 0 = .ok 5 :=
  (claim_C4_dense_get_characterisation ⟨[5]⟩ 0 0).2.1 5 rfl (by decide)

theorem length_byteImage (m : VectorBasedDenseMap V) (enc : V → List UInt8)
    (sizeofV : Nat) (h : ∀ v, (enc v).length = sizeofV) :
    (m.byteImage enc).length = m.size * sizeofV := by
  unfold byteImage size
  rcases m with ⟨l⟩
  induction l with
  | nil => simp
  | cons x xs ih =>
    simp only [List.map_cons, List.flatten_cons, List.length_append, h,
      List.length_cons, ih, Nat.succ_mul]
    omega

/-- Claim C8: dump byte count.  Under the platform model in which each
value's object representation `enc v` has `sizeof(V) = sizeofV` bytes,
`dump_as_array` either succeeds having written exactly the raw byte
image of the `size()` stored elements in index order — `byte_size() =
size() * sizeofV` bytes — or fails; no partial write is reported as
success. -/
theorem claim_C8_dump_byte_count (m : VectorBasedDenseMap V)
    (enc : V → List UInt8) (sizeofV : Nat)
    (h : ∀ v, (enc v).length = sizeofV) (capacity : Nat) :
    (∀ bs, m.dump_as_array capacity enc = .ok bs →
      bs = m.byteImage enc ∧ bs.length = m.byte_size sizeofV ∧
        m.byte_size sizeofV = m.size * sizeofV) ∧
    (m.dump_as_array capacity enc = .ok (m.byteImage enc) ∨
      m.dump_as_array capacity enc = .error .writeFailed) := by
  have hb : (m.byteImage enc).length = m.size * sizeofV :=
    length_byteImage m enc sizeofV h
  have hbs : m.byte_size sizeofV = m.size * sizeofV := rfl
  unfold dump_as_array reliable_write
  by_cases hc : (m.byteImage enc).length ≤ capacity
  · rw [if_pos hc]
    refine ⟨?_, Or.inl rfl⟩
    intro bs hok
    cases hok
    exact ⟨rfl, hb.trans hbs.symm, hbs⟩
  · rw [if_neg hc]
    refine ⟨?_, Or.inr rfl⟩
    intro bs hok
    cases hok

/-- Witness for C8 at a concrete input. -/
theorem claim_C8_witness :
    ((⟨[1, 2, 3]⟩ : VectorBasedDenseMap Nat).byteImage
        fun v => [UInt8.ofNat v]).length
      = (⟨[1, 2, 3]⟩ : VectorBasedDenseMap Nat).byte_size 1 :=
  ((claim_C8_dump_byte_count ⟨[1, 2, 3]⟩ (fun v => [UInt8.ofNat v]) 1
    (fun _ => rfl) 10).1 _ rfl).2.1

end VectorBasedDenseMap

/-- Claim C9: a successful DenseIndex `get` never returns the sentinel
`e`; and no such guarantee holds for SparseIndex, whose `get` returns
whatever value was stored, including the sentinel (shown on the
one-element sequence `[(0, e)]`). -/
theorem claim_C9_dense_never_sentinel {V : Type} [DecidableEq V] (e : V) :
    (∀ (m : VectorBasedDenseMap V) (id : Nat) (v : V),
      m.get e id = .ok v → v ≠ e) ∧
    (⟨[(0, e)]⟩ : VectorBasedSparseMap V).get 0 = .ok e := by
  refine ⟨?_, rfl⟩
  intro m id v h
  exact ((VectorBasedDenseMap.get_eq_ok_iff m e id v).mp h).2

/-- Witness for C9 at a concrete input. -/
theorem claim_C9_witness :
    (42 : Nat) ≠ 0 ∧ (⟨[(0, 0)]⟩ : VectorBasedSparseMap Nat).get 0 = .ok 0 :=
  ⟨(claim_C9_dense_never_sentinel (0 : Nat)).1 ⟨[42]⟩ 0 42 rfl,
    (claim_C9_dense_never_sentinel (0 : Nat)).2⟩

namespace VectorBasedSparseMap

variable {V : Type}

theorem sparse_get_of_getElem?_none {m : VectorBasedSparseMap V} {id : Nat}
    (hr : m.m_vector[lower_bound m.m_vector id]? = none) :
    m.get id = .error (.notFound id) := by
  unfold get
  rw [hr]

theorem sparse_get_of_getElem?_some {m : VectorBasedSparseMap V} {id : Nat}
    {x : Nat × V} (hr : m.m_vector[lower_bound m.m_vector id]? = some x) :
    m.get id = if x.1 ≠ id then .error (.notFound id) else .ok x.2 := by
  unfold get
  rw [hr]

theorem get_cons_of_lt {x : Nat × V} {xs : List (Nat × V)} {id : Nat}
    (h : x.1 < id) :
    (⟨x :: xs⟩ : VectorBasedSparseMap V).get id
      = (⟨xs⟩ : VectorBasedSparseMap V).get id := by
  unfold get lower_bound
  rw [List.findIdx_cons]
  have hx : (!decide (x.1 < id)) = false := by simp [h]
  rw [hx]
  simp only [cond_false, List.getElem?_cons_succ]

/-- Correctness of the binary-search lookup on a key-sorted,
duplicate-free sequence: a stored pair `(id, v)` is found. -/
theorem get_of_sorted_nodup {l : List (Nat × V)} {id : Nat} {v : V}
    (hs : l.Pairwise (fun a b => a.1 ≤ b.1))
    (hn : (l.map Prod.fst).Nodup) (hm : (id, v) ∈ l) :
    (⟨l⟩ : VectorBasedSparseMap V).get id = .ok v := by
  induction l with
  | nil => cases hm
  | cons x xs ih =>
    rcases List.mem_cons.mp hm with hx | hx
    · subst hx
      unfold get lower_bound
      rw [List.findIdx_cons]
      have hx0 : (!decide ((id, v).1 < id)) = true := by simp
      rw [hx0]
      simp
    · have hple : x.1 ≤ id := (List.pairwise_cons.mp hs).1 (id, v) hx
      have hxne : x.1 ≠ id := by
        intro hEq
        have hmem : id ∈ xs.map Prod.fst := List.mem_map.mpr ⟨(id, v), hx, rfl⟩
        have hnot : x.1 ∉ xs.map Prod.fst := by
          rw [List.map_cons] at hn
          exact (List.nodup_cons.mp hn).1
        rw [hEq] at hnot
        exact hnot hmem
      have hlt : x.1 < id := lt_of_le_of_ne hple hxne
      rw [get_cons_of_lt hlt]
      have hn' : (xs.map Prod.fst).Nodup := by
        rw [List.map_cons] at hn
        exact (List.nodup_cons.mp hn).2
      exact ih (List.pairwise_cons.mp hs).2 hn' hx

/-- An identifier whose key occurs nowhere in the sequence is reported
as `NotFound`. -/
theorem get_of_not_mem_keys {l : List (Nat × V)} {id : Nat}
    (h : id ∉ l.map Prod.fst) :
    (⟨l⟩ : VectorBasedSparseMap V).get id = .error (.notFound id) := by
  cases hr : l[lower_bound l id]? with
  | none => exact sparse_get_of_getElem?_none hr
  | some x =>
    rw [sparse_get_of_getElem?_some hr]
    have hxl : x ∈ l := List.getElem?_mem hr
    have hne : x.1 ≠ id := by
      intro hEq
      exact h (hEq ▸ List.mem_map.mpr ⟨x, hxl, rfl⟩)
    rw [if_pos hne]

theorem pairLe_iff [LinearOrder V] (a b : Nat × V) :
    pairLe a b = true ↔ a.1 < b.1 ∨ (a.1 = b.1 ∧ a.2 ≤ b.2) := by
  simp [pairLe]

theorem pairLe_trans [LinearOrder V] (a b c : Nat × V)
    (h₁ : pairLe a b) (h₂ : pairLe b c) : pairLe a c := by
  simp only [pairLe_iff] at h₁ h₂ ⊢
  rcases h₁ with h | ⟨he, hv⟩ <;> rcases h₂ with h' | ⟨he', hv'⟩
  · exact Or.inl (h.trans h')
  · exact Or.inl (by omega)
  · exact Or.inl (by omega)
  · exact Or.inr ⟨he.trans he', hv.trans hv'⟩

theorem pairLe_total [LinearOrder V] (a b : Nat × V) :
    pairLe a b || pairLe b a := by
  simp only [Bool.or_eq_true, pairLe_iff]
  rcases Nat.lt_trichotomy a.1 b.1 with h | h | h
  · exact Or.inl (Or.inl h)
  · rcases le_total a.2 b.2 with hv | hv
    · exact Or.inl (Or.inr ⟨h, hv⟩)
    · exact Or.inr (Or.inr ⟨h.symm, hv⟩)
  · exact Or.inr (Or.inl h)

theorem le_of_pairLe [LinearOrder V] {a b : Nat × V} (h : pairLe a b) :
    a.1 ≤ b.1 := by
  rw [pairLe_iff] at h
  rcases h with h | ⟨h, _⟩ <;> omega

theorem sort_m_vector [LinearOrder V] (m : VectorBasedSparseMap V) :
    (m.sort).m_vector = m.m_vector.mergeSort pairLe := rfl

theorem sort_perm [LinearOrder V] (m : VectorBasedSparseMap V) :
    ((m.sort).m_vector).Perm m.m_vector :=
  List.mergeSort_perm m.m_vector pairLe

theorem sort_sorted [LinearOrder V] (m : VectorBasedSparseMap V) :
    ((m.sort).m_vector).Pairwise (fun a b => pairLe a b) :=
  List.sorted_mergeSort pairLe_trans pairLe_total m.m_vector

theorem setAll_m_vector (ps : List (Nat × V)) : (setAll ps).m_vector = ps := by
  suffices h : ∀ acc : List (Nat × V),
      (ps.foldl (fun (m : VectorBasedSparseMap V) p => m.set p.1 p.2)
        ⟨acc⟩).m_vector = acc ++ ps by
    simpa [setAll] using h []
  induction ps with
  | nil => intro acc; simp
  | cons p ps ih =>
    intro acc
    rw [List.foldl_cons]
    have hstep : (⟨acc⟩ : VectorBasedSparseMap V).set p.1 p.2
        = ⟨acc ++ [p]⟩ := rfl
    rw [hstep, ih]
    simp

theorem sort_setAll [LinearOrder V] (ps : List (Nat × V)) :
    (setAll ps).sort = (⟨ps.mergeSort pairLe⟩ : VectorBasedSparseMap V) := by
  calc (setAll ps).sort = ⟨((setAll ps).sort).m_vector⟩ := rfl
    _ = ⟨ps.mergeSort pairLe⟩ := by rw [sort_m_vector, setAll_m_vector]

/-- Claim C2: SparseIndex round-trip after sort.  After a batch of `set`
calls with pairwise distinct identifiers on an initially empty map,
followed by `sort`, `get` succeeds on every inserted identifier and
returns its value. -/
theorem claim_C2_sparse_roundtrip [LinearOrder V] (ps : List (Nat × V))
    (h : (ps.map Prod.fst).Nodup) :
    ∀ p ∈ ps, ((setAll ps).sort).get p.1 = .ok p.2 := by
  intro p hp
  have hperm : (ps.mergeSort pairLe).Perm ps := List.mergeSort_perm ps pairLe
  have hs : (ps.mergeSort pairLe).Pairwise (fun a b => a.1 ≤ b.1) :=
    (List.sorted_mergeSort pairLe_trans pairLe_total ps).imp le_of_pairLe
  have hn : ((ps.mergeSort pairLe).map Prod.fst).Nodup :=
    ((hperm.map Prod.fst).symm).nodup h
  have hm : (p.1, p.2) ∈ ps.mergeSort pairLe := hperm.mem_iff.mpr hp
  rw [sort_setAll]
  exact get_of_sorted_nodup hs hn hm

/-- Witness for C2 at a concrete input. -/
theorem claim_C2_witness :
    ((setAll [(3, 10), (1, 20)]).sort).get 3 = .ok 10 :=
  claim_C2_sparse_roundtrip [(3, 10), (1, 20)] (by decide) (3, 10) (by decide)

/-- Claim C5: `sort` orders the stored sequence ascending by identifier,
and a second `sort` on the result leaves the sequence unchanged. -/
theorem claim_C5_sort_ascending_idempotent [LinearOrder V]
    (m : VectorBasedSparseMap V) :
    ((m.sort).m_vector).Pairwise (fun a b => a.1 ≤ b.1) ∧
    (m.sort).sort = m.sort := by
  constructor
  · exact (sort_sorted m).imp le_of_pairLe
  · show (⟨((m.sort).m_vector).mergeSort pairLe⟩ : VectorBasedSparseMap V)
      = m.sort
    rw [List.mergeSort_of_sorted (sort_sorted m)]

/-- Claim C6: SparseIndex absence.  After a batch of `set` calls on an
initially empty map followed by `sort`, `get` on an identifier that was
never inserted fails with `NotFound`. -/
theorem claim_C6_sparse_absence [LinearOrder V] (ps : List (Nat × V))
    (id : Nat) (h : id ∉ ps.map Prod.fst) :
    ((setAll ps).sort).get id = .error (.notFound id) := by
  have hperm : (ps.mergeSort pairLe).Perm ps := List.mergeSort_perm ps pairLe
  have hn : id ∉ (ps.mergeSort pairLe).map Prod.fst := fun hmem =>
    h ((hperm.map Prod.fst).mem_iff.mp hmem)
  rw [sort_setAll]
  exact get_of_not_mem_keys hn

/-- Witness for C6 at a concrete input. -/
theorem claim_C6_witness :
    ((setAll [(3, 10), (1, 20)]).sort).get 2 = .error (.notFound 2) :=
  claim_C6_sparse_absence [(3, 10), (1, 20)] 2 (by decide)

/-- Claim C7: SparseIndex `set` is an unconditional append — the new
pair goes at the end, every previously stored pair keeps its value and
position, and `size` grows by exactly one, duplicates included. -/
theorem claim_C7_sparse_set_append (m : VectorBasedSparseMap V) (id : Nat)
    (v : V) :
    (m.set id v).m_vector = m.m_vector ++ [(id, v)] ∧
    (∀ i, i < m.size → (m.set id v).m_vector[i]? = m.m_vector[i]?) ∧
    (m.set id v).size = m.size + 1 := by
  refine ⟨rfl, ?_, ?_⟩
  · intro i hi
    exact List.getElem?_append_left hi
  · show (m.m_vector ++ [(id, v)]).length = m.m_vector.length + 1
    simp

/-- Witness for C7 at a concrete input. -/
theorem claim_C7_witness :
    ((⟨[(1, 5)]⟩ : VectorBasedSparseMap Nat).set 1 6).m_vector
        = [(1, 5), (1, 6)] ∧
    ((⟨[(1, 5)]⟩ : VectorBasedSparseMap Nat).set 1 6).m_vector[0]?
        = (⟨[(1, 5)]⟩ : VectorBasedSparseMap Nat).m_vector[0]? ∧
    ((⟨[(1, 5)]⟩ : VectorBasedSparseMap Nat).set 1 6).size = 2 :=
  ⟨(claim_C7_sparse_set_append ⟨[(1, 5)]⟩ 1 6).1,
    (claim_C7_sparse_set_append ⟨[(1, 5)]⟩ 1 6).2.1 0 (by decide),
    (claim_C7_sparse_set_append ⟨[(1, 5)]⟩ 1 6).2.2⟩

/-- Claim C10: `sort` preserves the stored contents — the sequence after
`sort` is a permutation of the sequence before it, and `size` is
unchanged. -/
theorem claim_C10_sort_preserves_contents [LinearOrder V]
    (m : VectorBasedSparseMap V) :
    ((m.sort).m_vector).Perm m.m_vector ∧ (m.sort).size = m.size :=
  ⟨sort_perm m, (sort_perm m).length_eq⟩

end VectorBasedSparseMap

end Osmium
